import Mathlib

/-!
Verification development for the signature-scanning / memory-patching core of
the CodeVeinFix repository (src/src/utils.cpp, src/src/main.cpp).

The C++ source is shallowly embedded:
  * signature strings are `List Char`;
  * module memory (the mapped image) is a `List Nat` of byte values (< 256);
  * the module's header-declared image size is an explicit `Nat` parameter
    (`SizeOfImage` is a 32-bit `DWORD` in the source, so theorems carry the
    hypothesis `sizeOfImage < 2^32` where that width matters);
  * the process state touched by `patch` is a `MemState` (bytes plus the
    protection value of the patched region); `VirtualProtect`'s possible
    failure is an explicit `Bool` oracle, since the environment decides it;
  * unsigned C arithmetic is `Nat` with explicit `% 2^64` / `% 2^32`.
-/

/-- C `isspace` for the execution character set: space and the five control
whitespace characters (codes 9-13). -/
def isSpaceC (c : Char) : Bool :=
  c.toNat == 32 || (9 ≤ c.toNat && c.toNat ≤ 13)

/-- C `isxdigit`: `0`-`9`, `A`-`F`, `a`-`f`. -/
def isHexDigitC (c : Char) : Bool :=
  (48 ≤ c.toNat && c.toNat ≤ 57) || (65 ≤ c.toNat && c.toNat ≤ 70) ||
    (97 ≤ c.toNat && c.toNat ≤ 102)

/-- Numeric value of a hex digit character (meaningful on `isHexDigitC` chars). -/
def hexVal (c : Char) : Nat :=
  if c.toNat ≤ 57 then c.toNat - 48
  else if c.toNat ≤ 70 then c.toNat - 55
  else c.toNat - 87

/-- Value of a run of hex digits, most significant first (the accumulation
`strtoul` performs digit by digit). -/
def hexListVal (l : List Char) : Nat :=
  l.foldl (fun a c => a * 16 + hexVal c) 0

/-- `ULONG_MAX` for the 32-bit `unsigned long` of the Windows target. -/
def ULONG_MAX32 : Nat := 2 ^ 32 - 1

/-- 2^64, the modulus of `size_t` arithmetic on the Win64 target. -/
def UINT64_MOD : Nat := 2 ^ 64

/-- `int` value obtained by converting a 32-bit `unsigned long` (two's
complement narrowing, as on the source's target). -/
def toInt32 (v : Nat) : Int :=
  if v % 2 ^ 32 < 2 ^ 31 then ((v % 2 ^ 32 : Nat) : Int)
  else ((v % 2 ^ 32 : Nat) : Int) - 2 ^ 32

/-- `strtoul(current, &current, 16)` on the remaining characters `l`:
skips leading whitespace, then consumes a maximal run of hex digits.
Returns `(value, charsConsumed)`; when no digit follows the whitespace there
is no conversion, the value is `0` and `endptr` stays at `current`
(`charsConsumed = 0`).  On overflow `strtoul` yields `ULONG_MAX`.
Modelled for the character set the repository's signature grammar uses
(hex digits, spaces, `?`): the sign and `0x`-prefix forms of `strtoul`
never occur in those strings. -/
def strtoul16 (l : List Char) : Nat × Nat :=
  let sp := (l.takeWhile isSpaceC).length
  let digits := (l.drop sp).takeWhile isHexDigitC
  if digits.length = 0 then (0, 0)
  else (min (hexListVal digits) ULONG_MAX32, sp + digits.length)

/-- One step of the signature-compiling loop of `patternScan`'s
`pattern_to_byte` lambda (src/src/utils.cpp:96-113), fuel-indexed so that the
kernel can evaluate it.  Each iteration consumes at least one character, so
`l.length` fuel suffices (`pattern_to_byte` below supplies it).

The loop body: on `?`, advance, absorb a second `?` if present (the check
reads the terminating NUL when the string ends, which is not `?`), and push
the wildcard token `-1`; otherwise push `(int)strtoul(current, &current, 16)`.
The loop header's `++current` then skips one further character. -/
def pattern_to_byte_go : Nat → List Char → List Int
  | 0, _ => []
  | _, [] => []
  | fuel + 1, c :: cs =>
    if c = '?' then
      if cs.getD 0 (Char.ofNat 0) = '?' then
        (-1) :: pattern_to_byte_go fuel (cs.drop 2)
      else
        (-1) :: pattern_to_byte_go fuel (cs.drop 1)
    else
      let r := strtoul16 (c :: cs)
      toInt32 r.1 :: pattern_to_byte_go fuel ((c :: cs).drop (r.2 + 1))

/-- The scanner's `pattern_to_byte` lambda (src/src/utils.cpp:96-113): compile
a signature string into `int` tokens, `-1` for a wildcard, the parsed byte
value otherwise. -/
def pattern_to_byte (l : List Char) : List Int :=
  pattern_to_byte_go l.length l

/-- One step of the byte-compiling loop of `patch`'s `pattern_to_byte` lambda
(src/src/utils.cpp:77-85): no wildcard handling, each parsed value is narrowed
to `uint8_t` (`% 256`). -/
def patch_pattern_to_byte_go : Nat → List Char → List Nat
  | 0, _ => []
  | _, [] => []
  | fuel + 1, c :: cs =>
    let r := strtoul16 (c :: cs)
    r.1 % 256 :: patch_pattern_to_byte_go fuel ((c :: cs).drop (r.2 + 1))

/-- `patch`'s `pattern_to_byte` lambda (src/src/utils.cpp:77-85): compile a
pattern string into the `uint8_t` bytes that will be written. -/
def patch_pattern_to_byte (l : List Char) : List Nat :=
  patch_pattern_to_byte_go l.length l

/-- `std::format("\x7b:02X\x7d", b)` for a `uint8_t` argument: two uppercase
hex digits.  (`uint8_t` values are below 256, so the width is exactly two.) -/
def hexDigitChar (n : Nat) : Char :=
  if n < 10 then Char.ofNat (48 + n) else Char.ofNat (55 + n)

/-- The two-digit uppercase rendering of one byte. -/
def byteToHex (b : Nat) : List Char :=
  [hexDigitChar (b / 16), hexDigitChar (b % 16)]

/-- `Utils::bytesToString` (src/src/utils.cpp:55-64): append `"XX "` per byte,
then `pop_back` the trailing space when the string is nonempty.  The input
list holds the `uint8_t` values read through the `(uint8_t*)bytes` cast. -/
def bytesToString (bs : List Nat) : List Char :=
  let pattern := bs.foldl (fun acc b => acc ++ byteToHex b ++ [' ']) []
  if pattern = [] then pattern else pattern.dropLast

/-- The scan loop's bound `sizeOfImage - s` (src/src/utils.cpp:125), computed
in unsigned 64-bit arithmetic: `sizeOfImage` (a `DWORD`) is widened to
`size_t` because `s = patternBytes.size()` is a `size_t`, so the subtraction
wraps modulo 2^64 when `s > sizeOfImage`. -/
def scanBound (sizeOfImage s : Nat) : Nat :=
  (sizeOfImage + (UINT64_MOD - s % UINT64_MOD)) % UINT64_MOD

/-- The inner loop of `patternScan` (src/src/utils.cpp:126-132): candidate
offset `i` matches when no token mismatches, a mismatch at `j` being
`scanBytes[i + j] != d[j] && d[j] != -1` (the image byte is promoted to
`int` for the comparison; the `break` on the first mismatch does not change
the resulting flag). -/
def matchAt (img : List Nat) (pat : List Int) (i : Nat) : Bool :=
  (List.range pat.length).all fun j =>
    ((img.getD (i + j) 0 : Int) == pat.getD j 0) || (pat.getD j 0 == -1)

/-- The outer loop of `patternScan` (src/src/utils.cpp:125-136) on an already
compiled token list: walk candidate offsets `i` below `scanBound` and
`push_back` the absolute address `(uint64)&scanBytes[i] = base + i` of every
match. -/
def patternScanTokens (img : List Nat) (sizeOfImage : Nat) (pat : List Int)
    (base : Nat) : List Nat :=
  (List.range (scanBound sizeOfImage pat.length)).foldl
    (fun acc i => if matchAt img pat i then acc ++ [base + i] else acc) []

/-- `Utils::patternScan` (src/src/utils.cpp:94-137).  `img` is the mapped
image's bytes starting at `base`; `sizeOfImage` is the header-declared
`OptionalHeader.SizeOfImage` (the code reads it from the PE headers of
`module`, here it is passed explicitly). -/
def patternScan (img : List Nat) (sizeOfImage : Nat) (signature : List Char)
    (base : Nat) : List Nat :=
  patternScanTokens img sizeOfImage (pattern_to_byte signature) base

/-- `PAGE_EXECUTE_READWRITE` (0x40). -/
def PAGE_EXECUTE_READWRITE : Nat := 64

/-- The process state `patch` touches: the image bytes and the protection
value of the patched region (the model tracks one protection value for the
region a `patch` call covers). -/
structure MemState where
  mem : List Nat
  prot : Nat
deriving DecidableEq, Repr

/-- `VirtualProtect(addr, size, newProt, &oldProtect)`: on success the
region's protection becomes `newProt` and `oldProtect` receives the previous
value; on failure (the `ok` oracle, decided by the operating environment) the
protection is unchanged.  Returns (state, value stored in `oldProtect`).
The source ignores the `BOOL` result in both calls. -/
def virtualProtect (ok : Bool) (st : MemState) (newProt : Nat) :
    MemState × Nat :=
  if ok then ({ st with prot := newProt }, st.prot) else (st, st.prot)

/-- `memcpy((LPVOID)address, bytes.data(), bytes.size())` restricted to the
modelled region: byte `i` of the region becomes `bytes[i - address]` when
`address ≤ i < address + bytes.length`.  (The real `memcpy` keeps writing past
the end of the mapped region — the model's region simply ends there.) -/
def memcpyAt (mem : List Nat) (address : Nat) (bytes : List Nat) : List Nat :=
  (List.range mem.length).map fun i =>
    if address ≤ i ∧ i < address + bytes.length then bytes.getD (i - address) 0
    else mem.getD i 0

/-- `Utils::patch` (src/src/utils.cpp:75-92): compile the pattern, change the
protection of the target span to `PAGE_EXECUTE_READWRITE`, `memcpy` the bytes
in, and re-apply the captured `oldProtect`.  `ok1`, `ok2` are the environment
verdicts of the two `VirtualProtect` calls; the source checks neither. -/
def patch (ok1 ok2 : Bool) (st : MemState) (address : Nat)
    (pattern : List Char) : MemState :=
  let patternBytes := patch_pattern_to_byte pattern
  let r1 := virtualProtect ok1 st PAGE_EXECUTE_READWRITE
  let st2 : MemState := { r1.1 with mem := memcpyAt r1.1.mem address patternBytes }
  (virtualProtect ok2 st2 r1.2).1

/-- `pillarBoxFix` (src/src/main.cpp:170-191), for an enabled fix: scan for
`"F6 41 2C 01 4C"`, then execute `uint8_t* hit = (uint8_t*)addr[0]` —
`std::vector::operator[]` on index 0 of an empty vector is undefined
behaviour, modelled as `none`.  Otherwise the nonnull `hit` is patched with
`"F6 41 2C 00"` (the patch offset inside the modelled region is
`hit - base`). -/
def pillarBoxFix (enable : Bool) (st : MemState) (sizeOfImage base : Nat) :
    Option MemState :=
  if enable then
    let addr := patternScan st.mem sizeOfImage ("F6 41 2C 01 4C".toList) base
    match addr.get? 0 with
    | none => none
    | some hit =>
      if hit ≠ 0 then
        some (patch true true st (hit - base) ("F6 41 2C 00".toList))
      else some st
  else some st

/-- The space-joined rendering `bytesToString` produces. -/
def joinSp : List Nat → List Char
  | [] => []
  | [b] => byteToHex b
  | b :: b2 :: rest => byteToHex b ++ ' ' :: joinSp (b2 :: rest)

/-- An uppercase hex digit: `0`-`9` or `A`-`F`. -/
def isUpperHexC (c : Char) : Bool :=
  (48 ≤ c.toNat && c.toNat ≤ 57) || (65 ≤ c.toNat && c.toNat ≤ 70)

example : pattern_to_byte ("AA ?? CC".toList) = [170, -1, 204] := by decide
example : pattern_to_byte ("F6 41 2C 01 4C".toList) = [246, 65, 44, 1, 76] := by decide
example : patch_pattern_to_byte ("F6 41 2C 00".toList) = [246, 65, 44, 0] := by decide
example : bytesToString [57, 142, 227, 63] = "39 8E E3 3F".toList := by decide
example : patternScan [9, 246, 65, 44, 1, 76, 3] 7 ("F6 41 2C 01 4C".toList) 1000 = [1001] := by decide
example : patternScan [170] 1 ("AA".toList) 0 = [] := by decide
example : pillarBoxFix true ⟨[0, 0, 0, 0, 0, 0], 64⟩ 6 1000 = none := by decide

/-! ## Arithmetic of the scan loop bound -/

/-- Without underflow (`s ≤ n`, `n` in `size_t` range) the bound is the
ordinary difference. -/
theorem scanBound_of_le {n s : Nat} (hs : s ≤ n) (hn : n < UINT64_MOD) :
    scanBound n s = n - s := by
  have hsM : s % UINT64_MOD = s := Nat.mod_eq_of_lt (lt_of_le_of_lt hs hn)
  unfold scanBound
  rw [hsM]
  have h1 : n + (UINT64_MOD - s) = (n - s) + UINT64_MOD := by omega
  rw [h1, Nat.add_mod_right]
  exact Nat.mod_eq_of_lt (by omega)

/-! ## The fold of the outer scan loop as a filter -/

theorem foldl_push_filter (p : Nat → Bool) (f : Nat → Nat) :
    ∀ (l : List Nat) (acc : List Nat),
      l.foldl (fun acc i => if p i then acc ++ [f i] else acc) acc =
        acc ++ (l.filter p).map f := by
  intro l
  induction l with
  | nil => intro acc; simp
  | cons x xs ih =>
    intro acc
    by_cases hx : p x
    · simp [List.foldl_cons, List.filter_cons, hx, ih]
    · simp [List.foldl_cons, List.filter_cons, hx, ih]

theorem patternScanTokens_eq (img : List Nat) (n : Nat) (pat : List Int)
    (base : Nat) :
    patternScanTokens img n pat base =
      ((List.range (scanBound n pat.length)).filter (matchAt img pat)).map
        (fun i => base + i) := by
  unfold patternScanTokens
  rw [foldl_push_filter]
  simp

/-- Membership in the scan result. -/
theorem mem_patternScanTokens (img : List Nat) (n : Nat) (pat : List Int)
    (base a : Nat) :
    a ∈ patternScanTokens img n pat base ↔
      ∃ i, i < scanBound n pat.length ∧ matchAt img pat i = true ∧
        a = base + i := by
  rw [patternScanTokens_eq]
  simp only [List.mem_map, List.mem_filter, List.mem_range]
  constructor
  · rintro ⟨i, ⟨hi, hm⟩, rfl⟩
    exact ⟨i, hi, hm, rfl⟩
  · rintro ⟨i, hi, hm, rfl⟩
    exact ⟨i, ⟨hi, hm⟩, rfl⟩

/-- The scan result is strictly ascending. -/
theorem pairwise_patternScanTokens (img : List Nat) (n : Nat) (pat : List Int)
    (base : Nat) :
    List.Pairwise (· < ·) (patternScanTokens img n pat base) := by
  rw [patternScanTokens_eq]
  refine List.Pairwise.map _ (fun a b h => ?_)
    (((List.pairwise_lt_range _).sublist (List.filter_sublist _)))
  omega

/-- The match predicate, declaratively. -/
theorem matchAt_iff (img : List Nat) (pat : List Int) (i : Nat) :
    matchAt img pat i = true ↔
      ∀ j, j < pat.length →
        pat.getD j 0 = -1 ∨ (img.getD (i + j) 0 : Int) = pat.getD j 0 := by
  unfold matchAt
  simp only [List.all_eq_true, List.mem_range, Bool.or_eq_true, beq_iff_eq]
  constructor
  · intro h j hj
    rcases h j hj with h1 | h2
    · exact Or.inr h1
    · exact Or.inl h2
  · intro h j hj
    rcases h j hj with h1 | h2
    · exact Or.inr h1
    · exact Or.inl h2

/-! ## The patcher -/

theorem getD_range_map (n : Nat) (f : Nat → Nat) (i : Nat) (hi : i < n) :
    (((List.range n).map f).getD i 0) = f i := by
  rw [List.getD_eq_getElem?_getD, List.getElem?_map, List.getElem?_range hi]
  rfl

theorem length_memcpyAt (mem : List Nat) (a : Nat) (bs : List Nat) :
    (memcpyAt mem a bs).length = mem.length := by
  unfold memcpyAt
  simp

theorem getD_memcpyAt_inside (mem : List Nat) (a : Nat) (bs : List Nat)
    (i : Nat) (hi : i < mem.length) (h1 : a ≤ i) (h2 : i < a + bs.length) :
    (memcpyAt mem a bs).getD i 0 = bs.getD (i - a) 0 := by
  unfold memcpyAt
  rw [getD_range_map _ _ _ hi]
  simp [h1, h2]

theorem getD_memcpyAt_outside (mem : List Nat) (a : Nat) (bs : List Nat)
    (i : Nat) (hi : i < mem.length) (h : i < a ∨ a + bs.length ≤ i) :
    (memcpyAt mem a bs).getD i 0 = mem.getD i 0 := by
  unfold memcpyAt
  rw [getD_range_map _ _ _ hi]
  rcases h with h | h
  · simp [show ¬ (a ≤ i ∧ i < a + bs.length) by omega]
  · simp [show ¬ (a ≤ i ∧ i < a + bs.length) by omega]

/-- With both protection changes succeeding, `patch` is: write the compiled
bytes, protection back to its initial value. -/
theorem patch_true_true (st : MemState) (a : Nat) (p : List Char) :
    patch true true st a p =
      ⟨memcpyAt st.mem a (patch_pattern_to_byte p), st.prot⟩ := rfl

/-- With the first protection change failing (and ignored), `patch` still
performs the very same write. -/
theorem patch_false_true (st : MemState) (a : Nat) (p : List Char) :
    patch false true st a p =
      ⟨memcpyAt st.mem a (patch_pattern_to_byte p), st.prot⟩ := rfl

/-! ## Facts about the hex rendering of one byte -/

theorem hexVal_hexDigitChar : ∀ n, n < 16 → hexVal (hexDigitChar n) = n := by
  decide

theorem isHexDigitC_hexDigitChar : ∀ n, n < 16 →
    isHexDigitC (hexDigitChar n) = true := by decide

theorem isSpaceC_hexDigitChar : ∀ n, n < 16 →
    isSpaceC (hexDigitChar n) = false := by decide

theorem hexDigitChar_ne_qmark : ∀ n, n < 16 → hexDigitChar n ≠ '?' := by
  decide

theorem isSpaceC_space_eq : isSpaceC ' ' = true := by decide

theorem isHexDigitC_space_eq : isHexDigitC ' ' = false := by decide

/-! ## The parser consumes fuel one character at a time, so any fuel at least
the string length gives the same tokens -/

theorem pattern_to_byte_go_fuel :
    ∀ (f1 : Nat), ∀ (l : List Char), ∀ (f2 : Nat), l.length ≤ f1 →
      l.length ≤ f2 → pattern_to_byte_go f1 l = pattern_to_byte_go f2 l := by
  intro f1
  induction f1 with
  | zero =>
    intro l f2 h1 _
    have : l = [] := List.length_eq_zero.mp (Nat.le_zero.mp h1)
    subst this
    cases f2 <;> rfl
  | succ f ih =>
    intro l f2 h1 h2
    cases l with
    | nil => cases f2 <;> rfl
    | cons c cs =>
      cases f2 with
      | zero => simp at h2
      | succ g =>
        simp only [List.length_cons] at h1 h2
        simp only [pattern_to_byte_go]
        split
        · split
          · exact congrArg (List.cons (-1))
              (ih (cs.drop 2) g (by simp only [List.length_drop]; omega)
                (by simp only [List.length_drop]; omega))
          · exact congrArg (List.cons (-1))
              (ih (cs.drop 1) g (by simp only [List.length_drop]; omega)
                (by simp only [List.length_drop]; omega))
        · exact congrArg (List.cons _)
            (ih ((c :: cs).drop ((strtoul16 (c :: cs)).2 + 1)) g
              (by simp only [List.length_drop, List.length_cons]; omega)
              (by simp only [List.length_drop, List.length_cons]; omega))

theorem pattern_to_byte_go_eq (f : Nat) (l : List Char) (h : l.length ≤ f) :
    pattern_to_byte_go f l = pattern_to_byte l :=
  pattern_to_byte_go_fuel f l l.length h le_rfl

/-! ## Parsing one serialized byte -/

theorem strtoul16_hexbyte (b : Nat) (hb : b < 256) (rest : List Char)
    (hrest : rest = [] ∨ ∃ r2, rest = ' ' :: r2) :
    strtoul16 (byteToHex b ++ rest) = (b, 2) := by
  have h1 : b / 16 < 16 := by omega
  have h2 : b % 16 < 16 := by omega
  have hsp : isSpaceC (hexDigitChar (b / 16)) = false := isSpaceC_hexDigitChar _ h1
  have hx1 : isHexDigitC (hexDigitChar (b / 16)) = true := isHexDigitC_hexDigitChar _ h1
  have hx2 : isHexDigitC (hexDigitChar (b % 16)) = true := isHexDigitC_hexDigitChar _ h2
  have hv1 : hexVal (hexDigitChar (b / 16)) = b / 16 := hexVal_hexDigitChar _ h1
  have hv2 : hexVal (hexDigitChar (b % 16)) = b % 16 := hexVal_hexDigitChar _ h2
  have hval : min (b / 16 * 16 + b % 16) ULONG_MAX32 = b := by
    have hbb : b / 16 * 16 + b % 16 = b := by omega
    rw [hbb]
    exact Nat.min_eq_left (by unfold ULONG_MAX32; omega)
  rcases hrest with rfl | ⟨r2, rfl⟩
  · simp [strtoul16, byteToHex, List.takeWhile_cons, hsp, hx1, hx2, hexListVal,
      hv1, hv2, hval]
  · simp [strtoul16, byteToHex, List.takeWhile_cons, hsp, hx1, hx2, hexListVal,
      isHexDigitC_space_eq, hv1, hv2, hval]

theorem toInt32_small (b : Nat) (hb : b < 256) : toInt32 b = (b : Int) := by
  unfold toInt32
  rw [Nat.mod_eq_of_lt (by omega)]
  rw [if_pos (by omega)]

theorem pattern_to_byte_hexbyte (b : Nat) (hb : b < 256) (rest : List Char)
    (hrest : rest = [] ∨ ∃ r2, rest = ' ' :: r2) :
    pattern_to_byte (byteToHex b ++ rest) =
      (b : Int) :: pattern_to_byte (rest.drop 1) := by
  have hlen : (byteToHex b ++ rest).length = rest.length + 2 := by
    simp [byteToHex]
  have hgo := pattern_to_byte_go_eq (rest.length + 2) (byteToHex b ++ rest)
    (by rw [hlen])
  rw [← hgo]
  have hne : hexDigitChar (b / 16) ≠ '?' := hexDigitChar_ne_qmark _ (by omega)
  have hst : strtoul16
      (hexDigitChar (b / 16) :: hexDigitChar (b % 16) :: rest) = (b, 2) := by
    have h := strtoul16_hexbyte b hb rest hrest
    simpa [byteToHex] using h
  simp only [byteToHex, List.cons_append, List.nil_append]
  rw [show rest.length + 2 = (rest.length + 1) + 1 from rfl]
  simp only [pattern_to_byte_go]
  rw [if_neg hne, hst]
  simp only [List.drop_succ_cons, List.drop_zero]
  rw [toInt32_small b hb]
  rw [pattern_to_byte_go_eq (rest.length + 1) _
    (by simp only [List.length_drop]; omega)]

/-! ## Shape of `bytesToString`: hex pairs joined by single spaces -/

theorem foldl_hex_acc (bs : List Nat) :
    ∀ acc : List Char,
      bs.foldl (fun acc b => acc ++ byteToHex b ++ [' ']) acc =
        acc ++ bs.foldl (fun acc b => acc ++ byteToHex b ++ [' ']) [] := by
  induction bs with
  | nil => intro acc; simp
  | cons b bs ih =>
    intro acc
    rw [List.foldl_cons, List.foldl_cons, ih (acc ++ byteToHex b ++ [' ']),
      ih (([] : List Char) ++ byteToHex b ++ [' '])]
    simp

theorem foldl_hex_joinSp (bs : List Nat) (h : bs ≠ []) :
    bs.foldl (fun acc b => acc ++ byteToHex b ++ [' ']) [] =
      joinSp bs ++ [' '] := by
  induction bs with
  | nil => exact absurd rfl h
  | cons b bs ih =>
    cases bs with
    | nil => simp [joinSp]
    | cons b2 rest =>
      rw [List.foldl_cons, foldl_hex_acc, ih (by simp)]
      simp [joinSp]

theorem bytesToString_eq_joinSp (bs : List Nat) :
    bytesToString bs = joinSp bs := by
  cases bs with
  | nil => rfl
  | cons b rest =>
    unfold bytesToString
    rw [foldl_hex_joinSp _ (by simp)]
    rw [if_neg (by simp)]
    exact List.dropLast_concat ..

/-! ## Round trip: serialize bytes, compile them back -/

theorem pattern_to_byte_joinSp (bs : List Nat) (h : ∀ b ∈ bs, b < 256) :
    pattern_to_byte (joinSp bs) = bs.map (fun b => Int.ofNat b) := by
  induction bs with
  | nil => rfl
  | cons b rest ih =>
    have hb : b < 256 := h b (by simp)
    cases rest with
    | nil =>
      have hp := pattern_to_byte_hexbyte b hb [] (Or.inl rfl)
      simpa [joinSp] using hp
    | cons b2 rest2 =>
      have hp := pattern_to_byte_hexbyte b hb (' ' :: joinSp (b2 :: rest2))
        (Or.inr ⟨joinSp (b2 :: rest2), rfl⟩)
      rw [show joinSp (b :: b2 :: rest2) =
        byteToHex b ++ ' ' :: joinSp (b2 :: rest2) from rfl]
      rw [hp]
      simp only [List.drop_succ_cons, List.drop_zero]
      rw [ih (fun x hx => h x (by simp [hx]))]
      simp

theorem pattern_to_byte_bytesToString (bs : List Nat)
    (h : ∀ b ∈ bs, b < 256) :
    pattern_to_byte (bytesToString bs) = bs.map (fun b => Int.ofNat b) := by
  rw [bytesToString_eq_joinSp]
  exact pattern_to_byte_joinSp bs h

/-! ## Character classes and shape facts used for the formatting claim -/

theorem isUpperHexC_hexDigitChar : ∀ n, n < 16 →
    isUpperHexC (hexDigitChar n) = true := by decide

theorem byteToHex_upper (b : Nat) (hb : b < 256) :
    ∀ c ∈ byteToHex b, isUpperHexC c = true := by
  intro c hc
  simp only [byteToHex, List.mem_cons, List.mem_singleton,
    List.not_mem_nil, or_false] at hc
  rcases hc with rfl | rfl
  · exact isUpperHexC_hexDigitChar _ (by omega)
  · exact isUpperHexC_hexDigitChar _ (by omega)

theorem joinSp_eq_intercalate (bs : List Nat) :
    joinSp bs = List.intercalate [' '] (bs.map byteToHex) := by
  induction bs with
  | nil => rfl
  | cons b rest ih =>
    cases rest with
    | nil => simp [joinSp, List.intercalate]
    | cons b2 r2 =>
      rw [show joinSp (b :: b2 :: r2) =
        byteToHex b ++ ' ' :: joinSp (b2 :: r2) from rfl, ih]
      simp [List.intercalate, List.intersperse_cons_cons]

theorem joinSp_length (bs : List Nat) (h : bs ≠ []) :
    (joinSp bs).length = 3 * bs.length - 1 := by
  induction bs with
  | nil => exact absurd rfl h
  | cons b rest ih =>
    cases rest with
    | nil => simp [joinSp, byteToHex]
    | cons b2 r2 =>
      rw [show joinSp (b :: b2 :: r2) =
        byteToHex b ++ ' ' :: joinSp (b2 :: r2) from rfl]
      rw [List.length_append]
      rw [List.length_cons, ih (by simp)]
      simp [byteToHex]
      omega

/-! ## Claims -/

/-- C1: the claim says that for every compiled pattern and image, `scan`
never returns an address whose span passes `base + imageSize`, and that a
pattern longer than the image yields an empty result with no out-of-bounds
read.  The code violates the second part: for `imageSize = 3` and the 5-byte
signature `"AA BB CC DD EE"`, the loop bound `sizeOfImage - s` is computed in
unsigned 64-bit arithmetic and underflows to `2^64 - 2` instead of being
zero, so the loop body runs (in particular candidate offset 3 is visited and
its first comparison reads the byte at `base + 3`, outside the 3-byte image;
with the 32-bit loop counter `i` the loop in fact never terminates). -/
theorem C1_scan_bound_underflow :
    (pattern_to_byte ("AA BB CC DD EE".toList)).length = 5 ∧
    scanBound 3 (pattern_to_byte ("AA BB CC DD EE".toList)).length =
      UINT64_MOD - 2 ∧
    2 ^ 32 ≤ scanBound 3 (pattern_to_byte ("AA BB CC DD EE".toList)).length ∧
    3 ∈ List.range
      (scanBound 3 (pattern_to_byte ("AA BB CC DD EE".toList)).length) := by
  have h5 : (pattern_to_byte ("AA BB CC DD EE".toList)).length = 5 := by
    decide
  have hb : scanBound 3 5 = UINT64_MOD - 2 := by decide
  refine ⟨h5, by rw [h5]; exact hb, ?_, ?_⟩
  · rw [h5, hb]
    norm_num [UINT64_MOD]
  · rw [h5]
    exact List.mem_range.mpr (by rw [hb]; norm_num [UINT64_MOD])

/-- C2, counterexample: the claim says the final candidate offset
`imageSize - patternLength` is scanned, so an image that is exactly the
pattern's bytes yields a single match at offset 0.  On the code, scanning the
one-byte image `[0xAA]` (`imageSize = 1`) for `"AA"` returns the empty list,
although the pattern does match at offset 0: the loop condition
`i < sizeOfImage - s` stops before offset `sizeOfImage - s`. -/
theorem C2_cex_final_offset_missed :
    patternScan [170] 1 ("AA".toList) 0 = [] ∧
    matchAt [170] (pattern_to_byte ("AA".toList)) 0 = true := by decide

/-- C2, amended: `scan` considers exactly the candidate starting offsets
strictly below `imageSize - patternLength`; the offset
`imageSize - patternLength` itself is never tested, so for an exact-byte
signature whose length equals `imageSize` the result is the empty
sequence. -/
theorem C2_amended_scan_candidate_range (img : List Nat) (n : Nat)
    (sig : List Char) (base i : Nat) (h32 : n < 2 ^ 32)
    (hs : (pattern_to_byte sig).length ≤ n) :
    (base + i ∈ patternScan img n sig base ↔
      i < n - (pattern_to_byte sig).length ∧
        matchAt img (pattern_to_byte sig) i = true) ∧
    ((pattern_to_byte sig).length = n → patternScan img n sig base = []) := by
  have hb : scanBound n (pattern_to_byte sig).length =
      n - (pattern_to_byte sig).length :=
    scanBound_of_le hs (by unfold UINT64_MOD; omega)
  constructor
  · rw [patternScan, mem_patternScanTokens]
    constructor
    · rintro ⟨j, hj, hm, hj2⟩
      have hij : j = i := by omega
      subst hij
      rw [hb] at hj
      exact ⟨hj, hm⟩
    · rintro ⟨hi, hm⟩
      exact ⟨i, by rw [hb]; exact hi, hm, rfl⟩
  · intro hlen
    have h0 : scanBound n (pattern_to_byte sig).length = 0 := by
      rw [hb, hlen, Nat.sub_self]
    rw [patternScan, patternScanTokens_eq, h0]
    rfl

/-- Witness for C2's amended theorem at the counterexample's input. -/
theorem C2_amended_witness :
    ((1 : Nat) < 2 ^ 32 ∧ (pattern_to_byte ("AA".toList)).length ≤ 1) ∧
    ((0 + 0 ∈ patternScan [170] 1 ("AA".toList) 0 ↔
      0 < 1 - (pattern_to_byte ("AA".toList)).length ∧
        matchAt [170] (pattern_to_byte ("AA".toList)) 0 = true) ∧
    ((pattern_to_byte ("AA".toList)).length = 1 →
      patternScan [170] 1 ("AA".toList) 0 = [])) :=
  ⟨⟨by norm_num, by decide⟩,
    C2_amended_scan_candidate_range [170] 1 ("AA".toList) 0 0 (by norm_num)
      (by decide)⟩

/-- C3: the scan returns every matching offset in the scanned range (no early
exit after a match) and the returned addresses are strictly ascending. -/
theorem C3_scan_all_matches_ascending (img : List Nat) (n : Nat)
    (pat : List Int) (base : Nat) (h32 : n < 2 ^ 32) (hs : pat.length ≤ n) :
    List.Pairwise (· < ·) (patternScanTokens img n pat base) ∧
    ∀ a, a ∈ patternScanTokens img n pat base ↔
      ∃ i, i < n - pat.length ∧ matchAt img pat i = true ∧ a = base + i := by
  have hb : scanBound n pat.length = n - pat.length :=
    scanBound_of_le hs (by unfold UINT64_MOD; omega)
  refine ⟨pairwise_patternScanTokens img n pat base, fun a => ?_⟩
  rw [mem_patternScanTokens, hb]

/-- Witness for C3: an image holding `39 8E E3 3F` at offsets 2 and 7 yields
exactly `[base + 2, base + 7]`, in ascending order. -/
theorem C3_witness :
    ((12 : Nat) < 2 ^ 32 ∧
      (pattern_to_byte ("39 8E E3 3F".toList)).length ≤ 12) ∧
    (List.Pairwise (· < ·) (patternScanTokens
        [0, 0, 57, 142, 227, 63, 0, 57, 142, 227, 63, 0] 12
        (pattern_to_byte ("39 8E E3 3F".toList)) 1000) ∧
      ∀ a, a ∈ patternScanTokens
          [0, 0, 57, 142, 227, 63, 0, 57, 142, 227, 63, 0] 12
          (pattern_to_byte ("39 8E E3 3F".toList)) 1000 ↔
        ∃ i, i < 12 - (pattern_to_byte ("39 8E E3 3F".toList)).length ∧
          matchAt [0, 0, 57, 142, 227, 63, 0, 57, 142, 227, 63, 0]
            (pattern_to_byte ("39 8E E3 3F".toList)) i = true ∧
          a = 1000 + i) ∧
    patternScanTokens [0, 0, 57, 142, 227, 63, 0, 57, 142, 227, 63, 0] 12
      (pattern_to_byte ("39 8E E3 3F".toList)) 1000 = [1002, 1007] :=
  ⟨⟨by norm_num, by decide⟩,
    C3_scan_all_matches_ascending
      [0, 0, 57, 142, 227, 63, 0, 57, 142, 227, 63, 0] 12
      (pattern_to_byte ("39 8E E3 3F".toList)) 1000 (by norm_num) (by decide),
    by decide⟩

/-- C4: the match predicate satisfies a `Wildcard` (`-1`) token at any image
byte and an `Exact` token only at an equal byte; `"AA ?? CC"` compiles to
`[Exact AA, Wildcard, Exact CC]`, matches `AA b1 CC` for every `b1`, and
fails on `AA b1 b2` whenever `b2 ≠ CC`. -/
theorem C4_wildcard_exact_predicate :
    (∀ img pat i, matchAt img pat i = true ↔
      ∀ j, j < pat.length →
        pat.getD j 0 = -1 ∨ (img.getD (i + j) 0 : Int) = pat.getD j 0) ∧
    pattern_to_byte ("AA ?? CC".toList) = [170, -1, 204] ∧
    (∀ b1 : Nat,
      matchAt [170, b1, 204] (pattern_to_byte ("AA ?? CC".toList)) 0 = true) ∧
    (∀ b1 b2 : Nat, b2 ≠ 204 →
      matchAt [170, b1, b2] (pattern_to_byte ("AA ?? CC".toList)) 0 = false) := by
  have hpat : pattern_to_byte ("AA ?? CC".toList) = [170, -1, 204] := by decide
  refine ⟨matchAt_iff, hpat, fun b1 => ?_, fun b1 b2 hb2 => ?_⟩
  · rw [hpat, (matchAt_iff _ _ _)]
    intro j hj
    simp only [List.length_cons, List.length_nil] at hj
    interval_cases j
    · exact Or.inr (by simp)
    · exact Or.inl (by simp)
    · exact Or.inr (by simp [List.getD])
  · rw [hpat]
    rcases h : matchAt [170, b1, b2] [170, -1, 204] 0 with _ | _
    · rfl
    · exfalso
      rw [matchAt_iff] at h
      have h2 := h 2 (by simp)
      simp [List.getD] at h2
      exact hb2 (by exact_mod_cast h2)

/-- Witness for C4 at `b1 = 0`, `b2 = 0xDD`. -/
theorem C4_witness :
    matchAt [170, 0, 204] (pattern_to_byte ("AA ?? CC".toList)) 0 = true ∧
    (221 : Nat) ≠ 204 ∧
    matchAt [170, 0, 221] (pattern_to_byte ("AA ?? CC".toList)) 0 = false :=
  ⟨C4_wildcard_exact_predicate.2.2.1 0, by decide,
    C4_wildcard_exact_predicate.2.2.2 0 221 (by decide)⟩

/-- C5: when the protection changes succeed, `patch` writes exactly the
compiled bytes into `[address, address + k)`, leaves every other byte of the
region unchanged, and restores the protection value captured before the
write. -/
theorem C5_patch_writes_and_restores (st : MemState) (address : Nat)
    (pattern : List Char)
    (h : address + (patch_pattern_to_byte pattern).length ≤ st.mem.length) :
    (patch true true st address pattern).prot = st.prot ∧
    (patch true true st address pattern).mem.length = st.mem.length ∧
    (∀ j, j < (patch_pattern_to_byte pattern).length →
      (patch true true st address pattern).mem.getD (address + j) 0 =
        (patch_pattern_to_byte pattern).getD j 0) ∧
    (∀ i, i < st.mem.length →
      (i < address ∨ address + (patch_pattern_to_byte pattern).length ≤ i) →
      (patch true true st address pattern).mem.getD i 0 =
        st.mem.getD i 0) := by
  rw [patch_true_true]
  refine ⟨rfl, length_memcpyAt st.mem address (patch_pattern_to_byte pattern),
    fun j hj => ?_, fun i hi hout => ?_⟩
  · rw [getD_memcpyAt_inside _ _ _ _ (by omega) (by omega) (by omega)]
    congr 1
    omega
  · exact getD_memcpyAt_outside _ _ _ _ hi hout

/-- Witness for C5: patching the 5-byte region `F6 41 2C 01 4C` at offset 0
with `"F6 41 2C 00"` leaves `F6 41 2C 00 4C` and the prior protection. -/
theorem C5_witness :
    ((0 : Nat) + (patch_pattern_to_byte ("F6 41 2C 00".toList)).length ≤
      (MemState.mk [246, 65, 44, 1, 76] 64).mem.length) ∧
    ((patch true true ⟨[246, 65, 44, 1, 76], 64⟩ 0
        ("F6 41 2C 00".toList)).prot =
      (MemState.mk [246, 65, 44, 1, 76] 64).prot ∧
     (patch true true ⟨[246, 65, 44, 1, 76], 64⟩ 0
        ("F6 41 2C 00".toList)).mem.length =
      (MemState.mk [246, 65, 44, 1, 76] 64).mem.length ∧
     (∀ j, j < (patch_pattern_to_byte ("F6 41 2C 00".toList)).length →
      (patch true true ⟨[246, 65, 44, 1, 76], 64⟩ 0
          ("F6 41 2C 00".toList)).mem.getD (0 + j) 0 =
        (patch_pattern_to_byte ("F6 41 2C 00".toList)).getD j 0) ∧
     (∀ i, i < (MemState.mk [246, 65, 44, 1, 76] 64).mem.length →
      (i < 0 ∨ 0 + (patch_pattern_to_byte ("F6 41 2C 00".toList)).length ≤ i) →
      (patch true true ⟨[246, 65, 44, 1, 76], 64⟩ 0
          ("F6 41 2C 00".toList)).mem.getD i 0 =
        (MemState.mk [246, 65, 44, 1, 76] 64).mem.getD i 0)) ∧
    (patch true true ⟨[246, 65, 44, 1, 76], 64⟩ 0
        ("F6 41 2C 00".toList)).mem = [246, 65, 44, 0, 76] :=
  ⟨by decide,
    C5_patch_writes_and_restores ⟨[246, 65, 44, 1, 76], 64⟩ 0
      ("F6 41 2C 00".toList) (by decide),
    by decide⟩

/-- C7: the claim says a failed protection change is reported and no write is
performed.  The code ignores `VirtualProtect`'s return value: with the first
protection change failing, `patch` still copies the bytes in — the target
region changes from `F6 41 2C 01 4C` to `F6 41 2C 00 4C`. -/
theorem C7_write_despite_protection_failure :
    (patch false true ⟨[246, 65, 44, 1, 76], 64⟩ 0
        ("F6 41 2C 00".toList)).mem = [246, 65, 44, 0, 76] ∧
    (patch false true ⟨[246, 65, 44, 1, 76], 64⟩ 0
        ("F6 41 2C 00".toList)).mem ≠
      (MemState.mk [246, 65, 44, 1, 76] 64).mem := by decide

/-- C6: `pattern_to_byte` is deterministic (it is a pure function of the
signature string), and the byte-serialization grammar round-trips: compiling
`bytesToString` of any byte list yields exactly that many tokens, each the
`Exact` token (nonnegative, never the wildcard `-1`) of the corresponding
byte, in memory order. -/
theorem C6_compile_deterministic_roundtrip :
    (∀ s : List Char, pattern_to_byte s = pattern_to_byte s) ∧
    ∀ bs : List Nat, (∀ b ∈ bs, b < 256) →
      pattern_to_byte (bytesToString bs) = bs.map (fun b => Int.ofNat b) ∧
      (pattern_to_byte (bytesToString bs)).length = bs.length ∧
      ∀ t ∈ pattern_to_byte (bytesToString bs), t ≠ -1 := by
  refine ⟨fun s => rfl, fun bs h => ?_⟩
  have hr := pattern_to_byte_bytesToString bs h
  refine ⟨hr, by rw [hr, List.length_map], ?_⟩
  rw [hr]
  intro t ht
  rw [List.mem_map] at ht
  obtain ⟨b, hb, rfl⟩ := ht
  show (b : Int) ≠ -1
  omega

/-- Witness for C6 at the bytes of the float `16/9` (`39 8E E3 3F`). -/
theorem C6_witness :
    (∀ b ∈ ([57, 142, 227, 63] : List Nat), b < 256) ∧
    (pattern_to_byte (bytesToString [57, 142, 227, 63]) =
        [57, 142, 227, 63].map (fun b => Int.ofNat b) ∧
      (pattern_to_byte (bytesToString [57, 142, 227, 63])).length =
        ([57, 142, 227, 63] : List Nat).length ∧
      ∀ t ∈ pattern_to_byte (bytesToString [57, 142, 227, 63]), t ≠ -1) ∧
    bytesToString [57, 142, 227, 63] = "39 8E E3 3F".toList ∧
    pattern_to_byte ("39 8E E3 3F".toList) = [57, 142, 227, 63] :=
  ⟨by decide, C6_compile_deterministic_roundtrip.2 [57, 142, 227, 63]
    (by decide), by decide, by decide⟩

/-- C8, counterexample: the claim says a patch span exceeding the image's
extent is detected before any byte is written and reported.  The code has no
such check: patching the 5-byte region `F6 41 2C 01 4C` at offset 3 with the
4-byte pattern `"AA BB CC DD"` (span 3 + 4 = 7 > 5) writes bytes anyway —
the region becomes `F6 41 2C AA BB`, with no error signalled anywhere
(`patch` returns `void` and checks nothing). -/
theorem C8_cex_oob_write_not_detected :
    5 < 3 + (patch_pattern_to_byte ("AA BB CC DD".toList)).length ∧
    (patch true true ⟨[246, 65, 44, 1, 76], 64⟩ 3
        ("AA BB CC DD".toList)).mem = [246, 65, 44, 170, 187] ∧
    (patch true true ⟨[246, 65, 44, 1, 76], 64⟩ 3
        ("AA BB CC DD".toList)).mem ≠ [246, 65, 44, 1, 76] := by decide

/-- C8, amended: `patch` performs no bounds detection at all — whenever the
target address lies in the region and the pattern is nonempty, the first
byte is overwritten, regardless of whether `address + span` exceeds the
region's extent (the header documents that staying in bounds is the caller's
responsibility). -/
theorem C8_amended_patch_no_bounds_check (st : MemState) (address : Nat)
    (pattern : List Char) (haddr : address < st.mem.length)
    (hk : 0 < (patch_pattern_to_byte pattern).length) :
    (patch true true st address pattern).mem.getD address 0 =
      (patch_pattern_to_byte pattern).getD 0 0 := by
  rw [patch_true_true]
  rw [getD_memcpyAt_inside _ _ _ _ haddr (le_refl address) (by omega)]
  rw [Nat.sub_self]

/-- Witness for C8's amended theorem at the counterexample's
out-of-bounds input. -/
theorem C8_amended_witness :
    ((3 : Nat) < (MemState.mk [246, 65, 44, 1, 76] 64).mem.length ∧
      0 < (patch_pattern_to_byte ("AA BB CC DD".toList)).length) ∧
    (patch true true ⟨[246, 65, 44, 1, 76], 64⟩ 3
        ("AA BB CC DD".toList)).mem.getD 3 0 =
      (patch_pattern_to_byte ("AA BB CC DD".toList)).getD 0 0 :=
  ⟨⟨by decide, by decide⟩,
    C8_amended_patch_no_bounds_check ⟨[246, 65, 44, 1, 76], 64⟩ 3
      ("AA BB CC DD".toList) (by decide) (by decide)⟩

/-- C9: the claim says a zero-match scan is surfaced as an empty sequence
(which holds) and that the dependent fix routine logs and skips without
reading any element of the empty result.  `pillarBoxFix` violates the second
part: it executes `uint8_t* hit = (uint8_t*)addr[0]` before any emptiness
check, and `std::vector::operator[]` on an empty vector is undefined
behaviour — on a six-byte image containing no occurrence of
`F6 41 2C 01 4C`, the enabled fix reaches that undefined read (`none` in the
model) instead of logging and skipping. -/
theorem C9_pillarbox_reads_empty_result :
    patternScan [0, 0, 0, 0, 0, 0] 6 ("F6 41 2C 01 4C".toList) 1000 = [] ∧
    pillarBoxFix true ⟨[0, 0, 0, 0, 0, 0], 64⟩ 6 1000 = none := by decide

/-- C10: `bytesToString` renders `n` bytes as uppercase two-hex-digit
literals joined by single spaces (no leading or trailing whitespace, length
`3n - 1` for `n ≥ 1`) and returns the empty string for `n = 0`. -/
theorem C10_bytesToString_format :
    bytesToString [] = [] ∧
    ∀ bs : List Nat, bs ≠ [] → (∀ b ∈ bs, b < 256) →
      bytesToString bs = List.intercalate [' '] (bs.map byteToHex) ∧
      (bytesToString bs).length = 3 * bs.length - 1 ∧
      ∀ b ∈ bs, (byteToHex b).length = 2 ∧
        ∀ c ∈ byteToHex b, isUpperHexC c = true := by
  refine ⟨rfl, fun bs hne h => ?_⟩
  refine ⟨by rw [bytesToString_eq_joinSp, joinSp_eq_intercalate], ?_, ?_⟩
  · rw [bytesToString_eq_joinSp, joinSp_length bs hne]
  · intro b hb
    exact ⟨by simp [byteToHex], byteToHex_upper b (h b hb)⟩

/-- Witness for C10 at the four bytes `39 8E E3 3F`. -/
theorem C10_witness :
    (([57, 142, 227, 63] : List Nat) ≠ [] ∧
      ∀ b ∈ ([57, 142, 227, 63] : List Nat), b < 256) ∧
    (bytesToString [57, 142, 227, 63] =
        List.intercalate [' '] ([57, 142, 227, 63].map byteToHex) ∧
      (bytesToString [57, 142, 227, 63]).length =
        3 * ([57, 142, 227, 63] : List Nat).length - 1 ∧
      ∀ b ∈ ([57, 142, 227, 63] : List Nat), (byteToHex b).length = 2 ∧
        ∀ c ∈ byteToHex b, isUpperHexC c = true) ∧
    (bytesToString [57, 142, 227, 63]).length = 11 :=
  ⟨⟨by decide, by decide⟩,
    C10_bytesToString_format.2 [57, 142, 227, 63] (by decide) (by decide),
    by decide⟩
